import Mathlib

/-!
Verification of the SWAT-Copilot core: project discovery, file
classification, whitespace table parsing and output analysis.
Each definition is a shallow embedding of the corresponding Python
function; theorems settle the spec's claims about them.
-/

set_option linter.unusedVariables false

namespace SwatSpec

/-! ## Whitespace table reader (src/swat_copilot/io/readers.py, read_space_table)

A file's text is modelled after Python's `splitlines()`: a list of lines,
each line a list of characters. -/

abbrev Line := List Char

/-- Python `str.split()` with no separator: split on runs of whitespace and
drop empty tokens.  `acc` holds the characters of the current token, reversed. -/
def pySplitAux : Line → Line → List Line
  | [], acc => if acc = [] then [] else [acc.reverse]
  | c :: cs, acc =>
    if c.isWhitespace then
      if acc = [] then pySplitAux cs [] else acc.reverse :: pySplitAux cs []
    else pySplitAux cs (c :: acc)

def pySplit (l : Line) : List Line := pySplitAux l []

/-- Python truthiness of `l.strip()`, negated: a line is blank iff every
character is whitespace. -/
def isBlank (l : Line) : Bool := l.all (·.isWhitespace)

/-- Value of a digit string, most significant first. -/
def digitsVal (ds : Line) : Nat := ds.foldl (fun a c => a * 10 + (c.toNat - 48)) 0

/-- `10^e` for an integer exponent, in ℚ. -/
def pow10 : Int → ℚ
  | .ofNat n => (10 : ℚ) ^ n
  | .negSucc n => 1 / (10 : ℚ) ^ (n + 1)

/-- Parse an unsigned decimal literal prefix (`12`, `3.5`, `.5`, `1.`),
returning its value and the unconsumed remainder. -/
def parseUnsigned (l : Line) : Option (ℚ × Line) :=
  let ip := l.takeWhile (·.isDigit)
  let r1 := l.dropWhile (·.isDigit)
  match r1 with
  | '.' :: r2 =>
    let fp := r2.takeWhile (·.isDigit)
    let r3 := r2.dropWhile (·.isDigit)
    if ip = [] ∧ fp = [] then none
    else some ((digitsVal ip : ℚ) + (digitsVal fp : ℚ) / (10 : ℚ) ^ fp.length, r3)
  | _ => if ip = [] then none else some ((digitsVal ip : ℚ), r1)

/-- Parse an exponent suffix: optional sign then at least one digit. -/
def parseExponent (l : Line) : Option Int :=
  match l with
  | '+' :: ds => if ds ≠ [] ∧ ds.all (·.isDigit) then some (digitsVal ds) else none
  | '-' :: ds => if ds ≠ [] ∧ ds.all (·.isDigit) then some (-(digitsVal ds : Int)) else none
  | ds => if ds ≠ [] ∧ ds.all (·.isDigit) then some (digitsVal ds) else none

/-- Numeric parse of one token, as `pd.to_numeric` accepts ordinary
decimal / scientific literals.  (The float specials `inf` and `nan` lie
outside the rational model; no claim concerns them.) -/
def parseRat (t : Line) : Option ℚ :=
  let sr : ℚ × Line :=
    match t with
    | '+' :: r => (1, r)
    | '-' :: r => (-1, r)
    | r => (1, r)
  match parseUnsigned sr.2 with
  | none => none
  | some (v, r) =>
    match r with
    | [] => some (sr.1 * v)
    | 'e' :: r2 => (parseExponent r2).map (fun e => sr.1 * v * pow10 e)
    | 'E' :: r2 => (parseExponent r2).map (fun e => sr.1 * v * pow10 e)
    | _ => none

/-- One column of the parsed table: either fully numeric, or kept as text. -/
inductive Col where
  | nums (xs : List ℚ)
  | strs (xs : List Line)
deriving DecidableEq

structure Table where
  names : List String
  cols : List Col
deriving DecidableEq

/-- The row loop of `read_space_table`: drop blank lines, split each
remaining line on whitespace, drop lines with fewer tokens than column
names, keep the first `names.length` tokens of the rest, in file order. -/
def rawRows (lines : List Line) (names : List String) : List (List Line) :=
  (lines.filter (fun l => !isBlank l)).filterMap (fun ln =>
    let parts := pySplit ln
    if names.length ≤ parts.length then some (parts.take names.length) else none)

/-- Tokens of column `j`, over the kept rows. -/
def colTokens (rows : List (List Line)) (j : Nat) : List Line :=
  rows.map (fun r => r.getD j [])

/-- `pd.to_numeric(col, errors="ignore")`: the whole column becomes numeric
when every token parses, and is retained as text otherwise. -/
def coerceCol (toks : List Line) : Col :=
  if toks.all (fun t => (parseRat t).isSome) then .nums (toks.filterMap parseRat)
  else .strs toks

/-- `read_space_table(path, names)` over the file's lines. -/
def read_space_table (lines : List Line) (names : List String) : Table :=
  let rows := rawRows lines names
  { names := names
    cols := (List.range names.length).map (fun j => coerceCol (colTokens rows j)) }

/-- Write one row as a line: tokens joined by single spaces. -/
def joinTokens : List Line → Line
  | [] => []
  | [t] => t
  | t :: ts => t ++ ' ' :: joinTokens ts

/-- A well-formed token: nonempty, no whitespace characters. -/
def goodToken (t : Line) : Bool := !t.isEmpty && t.all (fun c => !c.isWhitespace)

/-! ## File classification (src/swat_copilot/core/projects.py, scan_project_files)

`SWATFileType` is the enum of the source; `scanPatterns` is its pattern
table in the source's insertion order. A directory is a list of entries in
listing order (the order `Path.glob` enumerates them). -/

inductive SWATFileType where
  | MASTER_WATERSHED | CONTROL | SUBBASIN | HRU | ROUTING | WEATHER | SOIL
  | MANAGEMENT | GROUNDWATER | RESERVOIR | POND
  | OUTPUT_STD | OUTPUT_RCH | OUTPUT_SUB | OUTPUT_HRU | OUTPUT_RSV
  | CONFIG | UNKNOWN
deriving DecidableEq

def strChars (s : String) : List Char := s.data

/-- The two glob shapes the classifier uses: a literal file name, or
`*.suffix` (pathlib's `*` matches any character run, so this is a suffix
test on the name). -/
inductive GlobPat where
  | lit (s : String)
  | star (suf : String)
deriving DecidableEq

def GlobPat.matchesName : GlobPat → String → Bool
  | .lit s, n => decide (s = n)
  | .star suf, n => (strChars suf).isSuffixOf (strChars n)

/-- The `patterns` dict of `scan_project_files`, in insertion order. -/
def scanPatterns : List (SWATFileType × List GlobPat) :=
  [(.CONTROL, [.lit "file.cio"]),
   (.MASTER_WATERSHED, [.star ".Master.Watershed.dat"]),
   (.SUBBASIN, [.star ".sub"]),
   (.HRU, [.star ".hru"]),
   (.ROUTING, [.star ".rte"]),
   (.SOIL, [.star ".sol"]),
   (.MANAGEMENT, [.star ".mgt"]),
   (.GROUNDWATER, [.star ".gw"]),
   (.RESERVOIR, [.star ".res"]),
   (.POND, [.star ".pnd"]),
   (.WEATHER, [.star ".pcp", .star ".tmp", .star ".slr", .star ".hmd", .star ".wnd"]),
   (.OUTPUT_STD, [.lit "output.std"]),
   (.OUTPUT_RCH, [.lit "output.rch"]),
   (.OUTPUT_SUB, [.lit "output.sub"]),
   (.OUTPUT_HRU, [.lit "output.hru"]),
   (.OUTPUT_RSV, [.lit "output.rsv"])]

def patternsFor (t : SWATFileType) : List GlobPat :=
  match scanPatterns.find? (fun p => decide (p.1 = t)) with
  | some p => p.2
  | none => []

/-- One directory entry: its name and whether it is a regular file. -/
structure DirEntry where
  name : String
  isFile : Bool
deriving DecidableEq

/-- The bucket `scan_project_files` builds for one file type: for each of
the type's patterns in order, the matching regular files in listing order.
(The Python dict only materializes non-empty buckets via `setdefault`;
membership is unchanged by returning the empty list for the rest.) -/
def scanBucket (entries : List DirEntry) (t : SWATFileType) : List String :=
  (patternsFor t).flatMap (fun p =>
    (entries.filter (fun e => e.isFile && p.matchesName e.name)).map DirEntry.name)

/-! ## Output datasets and the analysis service
(src/swat_copilot/data_access/schemas.py, src/swat_copilot/services/analysis.py)

A parsed output file is a data frame: named columns and rows of rational
cell values (the numeric data the analysis paths consume).  The analysis
functions take the frame `_get_output_data` resolved (or `none`), which is
the boundary where file reading happens. -/

structure Frame where
  columns : List String
  rows : List (List ℚ)
deriving DecidableEq

/-- Index of a column name (first occurrence, as `pd` column lookup). -/
def colIdx (cols : List String) (c : String) : Nat :=
  cols.findIdx (fun x => decide (x = c))

/-- The cell of row `r` under column `c`. -/
def cellAt (d : Frame) (r : List ℚ) (c : String) : ℚ :=
  r.getD (colIdx d.columns c) 0

/-- `OutputData.variables`: the list of column names. -/
def Frame.variables (d : Frame) : List String := d.columns

/-- `OutputData.get_column`: the column's values, or `none` if absent. -/
def Frame.getColumn (d : Frame) (c : String) : Option (List ℚ) :=
  if c ∈ d.columns then some (d.rows.map (fun r => r.getD (colIdx d.columns c) 0))
  else none

/-- `AnalysisService._get_id_column`. -/
def idColumn : String → Option String
  | "reach" => some "RCH"
  | "subbasin" => some "SUB"
  | "hru" => some "HRU"
  | _ => none

def seriesMean (xs : List ℚ) : ℚ := xs.sum / (xs.length : ℚ)

def seriesMin (xs : List ℚ) : ℚ :=
  match xs with
  | [] => 0
  | x :: r => r.foldl min x

def seriesMax (xs : List ℚ) : ℚ :=
  match xs with
  | [] => 0
  | x :: r => r.foldl max x

def insertQ (x : ℚ) : List ℚ → List ℚ
  | [] => [x]
  | y :: ys => if x ≤ y then x :: y :: ys else y :: insertQ x ys

def sortQ : List ℚ → List ℚ
  | [] => []
  | x :: xs => insertQ x (sortQ xs)

/-- `Series.quantile` with pandas' default linear interpolation on the
sorted series.  (Empty series: pandas yields NaN; the rational model yields
0; no claim concerns that value.) -/
def quantileQ (xs : List ℚ) (q : ℚ) : ℚ :=
  match sortQ xs with
  | [] => 0
  | s =>
    let pos : ℚ := ((s.length - 1 : ℕ) : ℚ) * q
    let lo : ℕ := (Rat.floor pos).toNat
    let hi : ℕ := (Rat.ceil pos).toNat
    let a := s.getD lo 0
    let b := s.getD hi 0
    a + (b - a) * (pos - (lo : ℚ))

/-- The statistics dict `get_variable_statistics` builds over its chosen
series.  The `std` entry (square root of the sample variance of the same
series) is irrational-valued and omitted from the rational model; no claim
concerns its value. -/
structure VarStats where
  varName : String
  count : Nat
  mean : ℚ
  min : ℚ
  max : ℚ
  median : ℚ
  q25 : ℚ
  q75 : ℚ
deriving DecidableEq

def mkStats (v : String) (xs : List ℚ) : VarStats :=
  { varName := v, count := xs.length, mean := seriesMean xs, min := seriesMin xs,
    max := seriesMax xs, median := quantileQ xs (1/2), q25 := quantileQ xs (1/4),
    q75 := quantileQ xs (3/4) }

inductive StatResult where
  | error (msg : String)
  | ok (s : VarStats)
deriving DecidableEq

/-- `AnalysisService.get_variable_statistics`, over the frame
`_get_output_data(output_type)` resolved to (`none` when unavailable). -/
def get_variable_statistics (dataOpt : Option Frame) (outputType : String)
    (varName : String) (spatialId : Option Int) : StatResult :=
  match dataOpt with
  | none => .error ("Variable " ++ varName ++ " not found")
  | some data =>
    if varName ∈ data.variables then
      match data.getColumn varName with
      | none => .error ("Could not extract " ++ varName)
      | some series0 =>
        let series :=
          match spatialId with
          | none => series0
          | some sid =>
            match idColumn outputType with
            | some idc =>
              if idc ∈ data.columns then
                let filtered := data.rows.filter
                  (fun r => decide (cellAt data r idc = (sid : ℚ)))
                if filtered.isEmpty then series0
                else filtered.map (fun r => r.getD (colIdx data.columns varName) 0)
              else series0
            | none => series0
        .ok (mkStats varName series)
    else .error ("Variable " ++ varName ++ " not found")

/-- `df[available_cols]`: project the frame onto the listed columns. -/
def selectCols (d : Frame) (cs : List String) : Frame :=
  { columns := cs
    rows := d.rows.map (fun r => cs.map (fun c => r.getD (colIdx d.columns c) 0)) }

/-- `AnalysisService.get_time_series`. -/
def get_time_series (dataOpt : Option Frame) (outputType varName : String)
    (spatialId : Option Int) : Option Frame :=
  match dataOpt with
  | none => none
  | some data =>
    if varName ∈ data.variables then
      let df :=
        match spatialId with
        | none => data
        | some sid =>
          match idColumn outputType with
          | some idc =>
            if idc ∈ data.columns then
              { columns := data.columns
                rows := data.rows.filter
                  (fun r => decide (cellAt data r idc = (sid : ℚ))) }
            else data
          | none => data
      if df.rows.isEmpty then none
      else
        let timeCols := if "DAY" ∈ df.columns then ["MON", "YEAR", "DAY"]
          else ["MON", "YEAR"]
        let availableCols := (timeCols ++ [varName]).filter
          (fun c => decide (c ∈ df.columns))
        if availableCols.isEmpty then none else some (selectCols df availableCols)
    else none

/-- The `var_mapping` alias table of `calculate_water_balance`. -/
def var_mapping : List (String × List String) :=
  [("precipitation", ["PRECIP", "PRECIPmm"]),
   ("surface_runoff", ["SURQ", "SURQmm"]),
   ("lateral_flow", ["LATQ", "LATQmm"]),
   ("groundwater", ["GW_Q", "GWQmm"]),
   ("evapotranspiration", ["ET", "ETmm"]),
   ("percolation", ["PERC", "PERCmm"])]

/-- The inner alias loop of `calculate_water_balance`: first alias present
in the frame wins and contributes the sum of its column; a `None` column
(impossible once the name is in `variables`) falls through, as the loop
only breaks after a successful extraction. -/
def firstAliasSum (data : Frame) : List String → Option ℚ
  | [] => none
  | v :: rest =>
    if v ∈ data.variables then
      match data.getColumn v with
      | some series => some series.sum
      | none => firstAliasSum data rest
    else firstAliasSum data rest

/-- Key lookup in the built balance dict (Python `balance[component]`). -/
def lookupStr (k : String) : List (String × ℚ) → Option ℚ
  | [] => none
  | (k', v) :: rest => if k = k' then some v else lookupStr k rest

/-- `AnalysisService.calculate_water_balance`: the balance dict as an
association list in component order. -/
def calculate_water_balance (dataOpt : Option Frame) :
    Except String (List (String × ℚ)) :=
  match dataOpt with
  | none => .error "No output data available"
  | some data =>
    .ok (var_mapping.filterMap (fun ce =>
      (firstAliasSum data ce.2).map (fun s => (ce.1, s))))

/-! ## Project discovery (src/swat_copilot/core/projects.py, SWATProjectLocator)

The filesystem is a finite tree; a directory's children are kept in listing
order (the order `iterdir` and `glob` enumerate them).  The tree and its
child list form one mutual inductive so that every function below is
structurally recursive and evaluates in the kernel. -/

mutual
inductive FSTree where
  | file (name : String)
  | dir (name : String) (children : FSForest)

inductive FSForest where
  | nil
  | cons (t : FSTree) (rest : FSForest)
end

def FSTree.nameOf : FSTree → String
  | .file n => n
  | .dir n _ => n

def FSTree.isDirB : FSTree → Bool
  | .file _ => false
  | .dir _ _ => true

/-- The indicator patterns of `is_swat_project`: the control-file name
`file.cio` or the master-watershed glob `*.Master.Watershed.dat`.  `glob`
matches entries of any kind directly inside the directory. -/
def indicatorMatch (n : String) : Bool :=
  decide (n = "file.cio") || (strChars ".Master.Watershed.dat").isSuffixOf (strChars n)

def anyIndicator : FSForest → Bool
  | .nil => false
  | .cons c rest => indicatorMatch c.nameOf || anyIndicator rest

/-- `SWATProjectLocator.is_swat_project`: a directory with an indicator
entry directly inside it; a plain file is never a project. -/
def isSwatProject : FSTree → Bool
  | .file _ => false
  | .dir _ ch => anyIndicator ch

mutual
/-- The recursive `search` closure of `find_swat_projects`: stop beyond
`maxDepth`; record a project root and do not descend; otherwise recurse
into child directories in listing order at `depth + 1`.  A returned path is
the list of entry names from the search root down. -/
def findAux (maxDepth : Nat) (t : FSTree) (path : List String) (depth : Nat) :
    List (List String) :=
  if maxDepth < depth then []
  else if isSwatProject t then [path]
  else match t with
    | .file _ => []
    | .dir _ ch => findChildren maxDepth ch path depth

def findChildren (maxDepth : Nat) (ts : FSForest) (path : List String) (depth : Nat) :
    List (List String) :=
  match ts with
  | .nil => []
  | .cons c rest =>
    (if c.isDirB then findAux maxDepth c (path ++ [c.nameOf]) (depth + 1) else [])
      ++ findChildren maxDepth rest path depth
end

/-- `SWATProjectLocator.find_swat_projects(root_path, max_depth)`. -/
def find_swat_projects (t : FSTree) (maxDepth : Nat) : List (List String) :=
  findAux maxDepth t [] 0

def forestNames : FSForest → List String
  | .nil => []
  | .cons c rest => c.nameOf :: forestNames rest

def nodupStr : List String → Bool
  | [] => true
  | x :: xs => !(decide (x ∈ xs)) && nodupStr xs

mutual
/-- Real-filesystem well-formedness: sibling entry names are distinct at
every level (two entries of one directory cannot share a name on disk). -/
def wfNames : FSTree → Bool
  | .file _ => true
  | .dir _ ch => nodupStr (forestNames ch) && wfForest ch

def wfForest : FSForest → Bool
  | .nil => true
  | .cons c rest => wfNames c && wfForest rest
end

def forestToList : FSForest → List FSTree
  | .nil => []
  | .cons c rest => c :: forestToList rest

/-- Code-point lexicographic order on names (Python's string `<`). -/
def ltChars : List Char → List Char → Bool
  | [], [] => false
  | [], _ :: _ => true
  | _ :: _, [] => false
  | c :: cs, d :: ds => if c = d then ltChars cs ds else decide (c < d)

def nameLt (a b : FSTree) : Bool := ltChars (strChars a.nameOf) (strChars b.nameOf)

def insertByName (x : FSTree) : List FSTree → List FSTree
  | [] => [x]
  | y :: ys => if nameLt y x then y :: insertByName x ys else x :: y :: ys

/-- `sorted(children, key=name)` of the spec's traversal description. -/
def sortByName : List FSTree → List FSTree
  | [] => []
  | x :: xs => insertByName x (sortByName xs)

/-- Modelled from the spec: `find` as §4.3 describes it, recursing into
child directories in **sorted name order**; written with an explicit
remaining-depth budget (`maxDepth + 1 - depth`) so it stays structurally
recursive after sorting.  This is the spec-side definition C7 compares the
code's `find_swat_projects` against. -/
def findSortedAux : Nat → FSTree → List String → List (List String)
  | 0, _, _ => []
  | budget + 1, t, path =>
    if isSwatProject t then [path]
    else match t with
      | .file _ => []
      | .dir _ ch =>
        (sortByName (forestToList ch)).flatMap (fun c =>
          if c.isDirB then findSortedAux budget c (path ++ [c.nameOf]) else [])

def find_sorted_spec (t : FSTree) (maxDepth : Nat) : List (List String) :=
  findSortedAux (maxDepth + 1) t []

/-- Listing order already sorted by name, at every directory. -/
def namesSorted : List FSTree → Bool
  | [] => true
  | [_] => true
  | x :: y :: rest => !nameLt y x && namesSorted (y :: rest)

mutual
def listingSorted : FSTree → Bool
  | .file _ => true
  | .dir _ ch => namesSorted (forestToList ch) && listingSortedForest ch

def listingSortedForest : FSForest → Bool
  | .nil => true
  | .cons c rest => listingSorted c && listingSortedForest rest
end

/-! ## Project construction
(src/swat_copilot/core/projects.py SWATProject.__post_init__ and
src/swat_copilot/io/swat_project.py SWATProject.__init__)

A path is a component list with an absolute flag; the world is an
existence predicate over absolute component lists, and a relative path
exists iff its resolution against the working directory does (symlink and
dot-segment normalisation is outside the model; no claim concerns it). -/

structure PyPath where
  absolute : Bool
  comps : List String
deriving DecidableEq

/-- `Path.resolve()`: an absolute path is unchanged, a relative one is
anchored at the working directory. -/
def resolvePath (cwd : List String) (p : PyPath) : PyPath :=
  { absolute := true, comps := if p.absolute then p.comps else cwd ++ p.comps }

/-- `Path.exists()` under world `W` and working directory `cwd`. -/
def pathExists (W : List String → Bool) (cwd : List String) (p : PyPath) : Bool :=
  W ((resolvePath cwd p).comps)

/-- The dataclass `SWATProject` of `core/projects.py` (file buckets and
metadata are carried by the manager model below; this captures the fields
`__post_init__` validates and stores). -/
structure CoreProject where
  project_path : PyPath
  name : String
  description : String
deriving DecidableEq

/-- Dataclass construction: `__post_init__` raises `ValueError` when the
given path does not exist, and stores the path exactly as given. -/
def mkCoreProject (W : List String → Bool) (cwd : List String) (p : PyPath)
    (name description : String) : Except String CoreProject :=
  if pathExists W cwd p then .ok ⟨p, name, description⟩
  else .error "Project path does not exist"

/-- The `SWATProject` of `io/swat_project.py`: only the resolved root. -/
structure IoProject where
  root : PyPath
deriving DecidableEq

/-- `io` construction: resolve first, then raise `FileNotFoundError` when
the resolved root does not exist. -/
def mkIoProject (W : List String → Bool) (cwd : List String) (root : PyPath) :
    Except String IoProject :=
  let r := resolvePath cwd root
  if pathExists W cwd r then .ok ⟨r⟩ else .error "FileNotFoundError"

/-! ## Output reading (src/swat_copilot/data_access/readers.py)

The pandas parser is external C code; it is a parameter
`parse (skiprows) (content)` that either yields a frame or fails.  A
reader's file is `some content` when it exists. -/

structure OutputReaderM where
  content : String
  output_type : String
  skip_lines : Nat
deriving DecidableEq

/-- `SWATFileReader.__init__` specialised by `OutputReader.__init__`:
raises `FileNotFoundError` before any parsing when the file is missing
(`skip_lines` defaults to 9 at the call sites). -/
def mkOutputReader (fileContent : Option String) (output_type : String)
    (skip_lines : Nat) : Except String OutputReaderM :=
  match fileContent with
  | none => .error "File not found"
  | some c => .ok { content := c, output_type := output_type, skip_lines := skip_lines }

/-- `OutputReader._read_to_dataframe`: any parse exception is caught and an
empty frame returned in its place. -/
def read_to_dataframe (parse : Nat → String → Except String Frame)
    (r : OutputReaderM) : Frame :=
  match parse r.skip_lines r.content with
  | .ok df => df
  | .error _ => { columns := [], rows := [] }

inductive OutputKind where
  | reach | subbasin | hru | generic
deriving DecidableEq

/-- The `OutputData` wrapper `read` returns, tagged by the subclasses
`ReachOutput`/`SubbasinOutput`/`HRUOutput` (else the base class). -/
structure OutputDataM where
  kind : OutputKind
  data : Frame
deriving DecidableEq

/-- `OutputReader.read`: total — it wraps whatever frame
`_read_to_dataframe` produced, never raising. -/
def OutputReaderM.readData (parse : Nat → String → Except String Frame)
    (r : OutputReaderM) : OutputDataM :=
  let df := read_to_dataframe parse r
  if r.output_type = "reach" then ⟨.reach, df⟩
  else if r.output_type = "subbasin" then ⟨.subbasin, df⟩
  else if r.output_type = "hru" then ⟨.hru, df⟩
  else ⟨.generic, df⟩

/-! ## Project manager (src/swat_copilot/services/project_manager.py)

Paths here are absolute component lists into an `FSTree` world, so that
`is_swat_project`, `scan_project_files` and the dataclass existence check
all read the same directory tree. -/

def forestFind (n : String) : FSForest → Option FSTree
  | .nil => none
  | .cons c rest => if c.nameOf = n then some c else forestFind n rest

/-- Walk a path down the tree. -/
def lookupTree : FSTree → List String → Option FSTree
  | t, [] => some t
  | .file _, _ :: _ => none
  | .dir _ ch, n :: rest =>
    match forestFind n ch with
    | some c => lookupTree c rest
    | none => none

/-- `is_swat_project` applied at a path of the world: a missing path is not
a directory, hence not a project. -/
def is_swat_project_at (w : FSTree) (path : List String) : Bool :=
  match lookupTree w path with
  | some t => isSwatProject t
  | none => false

def forestEntries : FSForest → List DirEntry
  | .nil => []
  | .cons c rest => ⟨c.nameOf, !c.isDirB⟩ :: forestEntries rest

/-- `scan_project_files` at a path of the world: an absent or non-directory
path yields empty buckets. -/
def scan_project_files_at (w : FSTree) (path : List String)
    (t : SWATFileType) : List String :=
  match lookupTree w path with
  | some (.dir _ ch) => scanBucket (forestEntries ch) t
  | _ => []

/-- The dataclass project as the manager holds it: validated path, name,
description and the scanned file buckets. -/
structure ManagedProject where
  project_path : List String
  name : String
  description : String
  filesOf : SWATFileType → List String

/-- `SWATProject(...)` as `load_project` constructs it: `__post_init__`
raises when the path does not exist in the world. -/
def mkManagedProject (w : FSTree) (path : List String) (name description : String)
    (files : SWATFileType → List String) : Except String ManagedProject :=
  if (lookupTree w path).isSome then
    .ok { project_path := path, name := name, description := description,
          filesOf := files }
  else .error "Project path does not exist"

structure ProjectManagerM where
  current : Option ManagedProject

/-- `project_path.name`: the final path segment. -/
def lastComp (path : List String) : String := path.getLastD ""

def pathStr (path : List String) : String := String.intercalate "/" path

/-- `ProjectManager.load_project`: reject an invalid root before scanning;
construct the project; only then replace the current-project reference.
The returned manager is the post-call state — unchanged whenever an error
is returned, since the exception propagates before the assignment. -/
def load_project (w : FSTree) (m : ProjectManagerM) (path : List String) :
    Except String ManagedProject × ProjectManagerM :=
  if is_swat_project_at w path then
    match mkManagedProject w path (lastComp path)
        ("SWAT project at " ++ pathStr path) (scan_project_files_at w path) with
    | .ok proj => (.ok proj, { current := some proj })
    | .error e => (.error e, m)
  else (.error "Not a valid SWAT project", m)

/-! ### Lemmas about the table reader -/

theorem pySplitAux_nonws (t : Line) (ht : ∀ c ∈ t, c.isWhitespace = false) :
    ∀ (rest acc : Line), pySplitAux (t ++ rest) acc = pySplitAux rest (t.reverse ++ acc) := by
  induction t with
  | nil => intro rest acc; simp
  | cons c cs ih =>
    intro rest acc
    have hc : c.isWhitespace = false := ht c (by simp)
    have step : pySplitAux (c :: (cs ++ rest)) acc = pySplitAux (cs ++ rest) (c :: acc) := by
      simp [pySplitAux, hc]
    simp only [List.cons_append, step]
    rw [ih (fun d hd => ht d (by simp [hd])) rest (c :: acc)]
    simp

theorem pySplitAux_ws_cons (c : Char) (rest acc : Line) (hc : c.isWhitespace = true)
    (ha : acc ≠ []) : pySplitAux (c :: rest) acc = acc.reverse :: pySplitAux rest [] := by
  simp [pySplitAux, hc, ha]

theorem pySplitAux_nil_acc (acc : Line) (ha : acc ≠ []) :
    pySplitAux [] acc = [acc.reverse] := by
  simp [pySplitAux, ha]

theorem pySplitAux_all_ws (l : Line) (h : ∀ c ∈ l, c.isWhitespace = true) :
    pySplitAux l [] = [] := by
  induction l with
  | nil => simp [pySplitAux]
  | cons c cs ih =>
    simp [pySplitAux, h c (by simp)]
    exact ih (fun d hd => h d (by simp [hd]))

theorem pySplit_of_blank (l : Line) (h : isBlank l = true) : pySplit l = [] := by
  have h' : ∀ c ∈ l, c.isWhitespace = true := by
    simpa [isBlank, List.all_eq_true] using h
  exact pySplitAux_all_ws l h'

theorem isBlank_false_of_pySplit_ne (l : Line) (h : pySplit l ≠ []) :
    isBlank l = false := by
  by_contra hb
  exact h (pySplit_of_blank l (by simpa using hb))

theorem goodToken_ne_nil (t : Line) (h : goodToken t = true) : t ≠ [] := by
  simp [goodToken] at h
  intro hnil
  simp [hnil, List.isEmpty] at h

theorem goodToken_no_ws (t : Line) (h : goodToken t = true) :
    ∀ c ∈ t, c.isWhitespace = false := by
  simp [goodToken, List.all_eq_true] at h
  exact fun c hc => h.2 c hc

theorem pySplit_joinTokens :
    ∀ (toks : List Line), (∀ t ∈ toks, goodToken t = true) →
      pySplit (joinTokens toks) = toks
  | [], _ => by simp [pySplit, joinTokens, pySplitAux]
  | [t], h => by
    have hg := h t (by simp)
    have hnw := goodToken_no_ws t hg
    have hne := goodToken_ne_nil t hg
    have : pySplit (joinTokens [t]) = pySplitAux (t ++ []) [] := by
      simp [pySplit, joinTokens]
    rw [this, pySplitAux_nonws t hnw [] []]
    rw [pySplitAux_nil_acc _ (by simpa using hne)]
    simp
  | t :: t' :: ts, h => by
    have hg := h t (by simp)
    have hnw := goodToken_no_ws t hg
    have hne := goodToken_ne_nil t hg
    have hrec := pySplit_joinTokens (t' :: ts) (fun u hu => h u (List.mem_cons_of_mem t hu))
    show pySplitAux (t ++ ' ' :: joinTokens (t' :: ts)) [] = t :: t' :: ts
    rw [pySplitAux_nonws t hnw (' ' :: joinTokens (t' :: ts)) []]
    rw [pySplitAux_ws_cons ' ' (joinTokens (t' :: ts)) (t.reverse ++ []) (by decide)
      (by simpa using hne)]
    simp only [List.append_nil, List.reverse_reverse]
    exact congrArg (t :: ·) hrec

theorem rawRows_append (xs ys : List Line) (names : List String) :
    rawRows (xs ++ ys) names = rawRows xs names ++ rawRows ys names := by
  simp [rawRows, List.filter_append, List.filterMap_append]

theorem rawRows_blank (ln : Line) (names : List String) (h : isBlank ln = true) :
    rawRows [ln] names = [] := by
  simp [rawRows, h]

theorem rawRows_short (ln : Line) (names : List String)
    (h : (pySplit ln).length < names.length) : rawRows [ln] names = [] := by
  by_cases hb : isBlank ln
  · simp [rawRows, hb]
  · simp only [Bool.not_eq_true] at hb
    simp [rawRows, hb, Nat.not_le.mpr h]

theorem rawRows_keep (ln : Line) (names : List String) (hN : 0 < names.length)
    (h : names.length ≤ (pySplit ln).length) :
    rawRows [ln] names = [(pySplit ln).take names.length] := by
  have hb : isBlank ln = false := by
    apply isBlank_false_of_pySplit_ne
    intro hnil
    rw [hnil] at h
    simp only [List.length_nil, Nat.le_zero] at h
    omega
  simp [rawRows, hb, h]

theorem rawRows_roundtrip (names : List String) (hN : 0 < names.length) :
    ∀ (rows : List (List Line)),
      (∀ r ∈ rows, r.length = names.length ∧ ∀ t ∈ r, goodToken t = true) →
      rawRows (rows.map joinTokens) names = rows := by
  intro rows
  induction rows with
  | nil => intro _; simp [rawRows]
  | cons r rest ih =>
    intro h
    obtain ⟨hlen, htok⟩ := h r (by simp)
    have hsplit : pySplit (joinTokens r) = r := pySplit_joinTokens r htok
    have : rawRows (joinTokens r :: rest.map joinTokens) names
        = rawRows [joinTokens r] names ++ rawRows (rest.map joinTokens) names := by
      rw [show joinTokens r :: rest.map joinTokens = [joinTokens r] ++ rest.map joinTokens
        from rfl, rawRows_append]
    simp only [List.map_cons, this]
    rw [rawRows_keep _ _ hN (by rw [hsplit, hlen]), hsplit]
    rw [← hlen, List.take_length]
    simp only [List.singleton_append, List.cons.injEq, true_and]
    exact ih (fun r' hr' => h r' (by simp [hr']))

/-- C3: for a non-empty column-name list, `read_space_table` produces a table
with exactly those columns; a blank line contributes nothing; a line with
fewer whitespace tokens than columns contributes nothing; a line with at
least as many tokens contributes its first `names.length` tokens as one
row, in file order; and writing rows of exactly `names.length` well-formed
tokens and reading them back reproduces the token values. -/
theorem read_space_table_shape_and_roundtrip (names : List String)
    (hN : 0 < names.length) :
    (∀ lines, (read_space_table lines names).names = names ∧
      (read_space_table lines names).cols.length = names.length) ∧
    (∀ xs ys bl, isBlank bl = true →
      rawRows (xs ++ bl :: ys) names = rawRows (xs ++ ys) names) ∧
    (∀ xs ys ln, (pySplit ln).length < names.length →
      rawRows (xs ++ ln :: ys) names = rawRows (xs ++ ys) names) ∧
    (∀ xs ys ln, names.length ≤ (pySplit ln).length →
      rawRows (xs ++ ln :: ys) names
        = rawRows xs names ++ (pySplit ln).take names.length :: rawRows ys names) ∧
    (∀ rows : List (List Line),
      (∀ r ∈ rows, r.length = names.length ∧ ∀ t ∈ r, goodToken t = true) →
      rawRows (rows.map joinTokens) names = rows) := by
  refine ⟨?_, ?_, ?_, ?_, rawRows_roundtrip names hN⟩
  · intro lines
    constructor
    · rfl
    · simp [read_space_table]
  · intro xs ys bl hbl
    rw [show xs ++ bl :: ys = xs ++ [bl] ++ ys by simp, rawRows_append, rawRows_append,
      rawRows_append, rawRows_blank bl names hbl]
    simp
  · intro xs ys ln hln
    rw [show xs ++ ln :: ys = xs ++ [ln] ++ ys by simp, rawRows_append, rawRows_append,
      rawRows_append, rawRows_short ln names hln]
    simp
  · intro xs ys ln hln
    rw [show xs ++ ln :: ys = xs ++ [ln] ++ ys by simp, rawRows_append, rawRows_append,
      rawRows_keep ln names hN hln]
    simp

/-- Witness for C3 at a concrete two-line, one-column file. -/
theorem read_space_table_shape_and_roundtrip_witness :
    0 < (["A"] : List String).length ∧
      rawRows ([[['x']], [['y', 'z']]].map joinTokens) ["A"] = [[['x']], [['y', 'z']]] :=
  ⟨by decide,
    (read_space_table_shape_and_roundtrip ["A"] (by decide)).2.2.2.2
      [[['x']], [['y', 'z']]] (by decide)⟩

/-- C8: each column of the table is independently coerced: if every token of
column `j` parses as a number the column is the numeric column of the parsed
values, and if any token fails to parse the whole column is retained as text. -/
theorem read_space_table_column_coercion (lines : List Line) (names : List String)
    (j : Nat) (hj : j < names.length) :
    ((∀ t ∈ colTokens (rawRows lines names) j, (parseRat t).isSome = true) →
      (read_space_table lines names).cols.getD j (.strs [])
        = .nums ((colTokens (rawRows lines names) j).filterMap parseRat)) ∧
    ((∃ t ∈ colTokens (rawRows lines names) j, parseRat t = none) →
      (read_space_table lines names).cols.getD j (.strs [])
        = .strs (colTokens (rawRows lines names) j)) := by
  have hcol : (read_space_table lines names).cols.getD j (.strs [])
      = coerceCol (colTokens (rawRows lines names) j) := by
    simp [read_space_table, List.getD_eq_getElem?_getD, List.getElem?_map,
      List.getElem?_range, hj]
  constructor
  · intro hall
    rw [hcol, coerceCol, if_pos]
    simpa [List.all_eq_true] using hall
  · intro hex
    rw [hcol, coerceCol, if_neg]
    obtain ⟨t, ht, hnone⟩ := hex
    simp [List.all_eq_true]
    exact ⟨t, ht, by simp [hnone]⟩

/-- Witness for C8 on a one-line file whose single token parses numerically. -/
theorem read_space_table_column_coercion_witness :
    0 < (["A"] : List String).length ∧
      (∀ t ∈ colTokens (rawRows [['4', '2']] ["A"]) 0, (parseRat t).isSome = true) ∧
      (read_space_table [['4', '2']] ["A"]).cols.getD 0 (.strs [])
        = .nums ((colTokens (rawRows [['4', '2']] ["A"]) 0).filterMap parseRat) :=
  ⟨by decide, by decide,
    (read_space_table_column_coercion [['4', '2']] ["A"] 0 (by decide)).1 (by decide)⟩

/-- A name is in the bucket of type `t` iff some regular-file entry carries
it and it matches one of `t`'s patterns. -/
theorem mem_scanBucket_iff (entries : List DirEntry) (n : String) (t : SWATFileType) :
    n ∈ scanBucket entries t ↔
      (∃ e ∈ entries, e.name = n ∧ e.isFile = true) ∧
      ∃ p ∈ patternsFor t, p.matchesName n = true := by
  simp only [scanBucket, List.mem_flatMap, List.mem_map, List.mem_filter,
    Bool.and_eq_true]
  constructor
  · rintro ⟨p, hp, e, ⟨he, hf, hm⟩, hn⟩
    exact ⟨⟨e, he, hn, hf⟩, p, hp, hn ▸ hm⟩
  · rintro ⟨⟨e, he, hn, hf⟩, p, hp, hm⟩
    exact ⟨p, hp, e, ⟨he, hf, hn ▸ hm⟩, hn⟩

/-- C1 counterexample: in a directory holding a regular file named
`output.sub`, the scan files that single entry under both `SUBBASIN`
(pattern `*.sub`) and `OUTPUT_SUB` (pattern `output.sub`). -/
theorem scan_project_files_double_filing_counterexample :
    SWATFileType.SUBBASIN ≠ SWATFileType.OUTPUT_SUB ∧
      "output.sub" ∈ scanBucket [⟨"output.sub", true⟩] SWATFileType.SUBBASIN ∧
      "output.sub" ∈ scanBucket [⟨"output.sub", true⟩] SWATFileType.OUTPUT_SUB := by
  decide

/-- C1 (amended): within one scan pass a file is filed under a type only
when its name matches that type's declared patterns, so an entry lands in
the buckets of two different types only when its name matches patterns of
both types (as `output.sub` matches both `*.sub` and `output.sub`); a name
matching the patterns of at most one type appears in at most one bucket. -/
theorem scan_project_files_double_filing_only_on_double_match
    (entries : List DirEntry) (n : String) (t₁ t₂ : SWATFileType)
    (h₁ : n ∈ scanBucket entries t₁) (h₂ : n ∈ scanBucket entries t₂)
    (hne : t₁ ≠ t₂) :
    (∃ p ∈ patternsFor t₁, p.matchesName n = true) ∧
      ∃ p ∈ patternsFor t₂, p.matchesName n = true :=
  ⟨((mem_scanBucket_iff entries n t₁).1 h₁).2,
   ((mem_scanBucket_iff entries n t₂).1 h₂).2⟩

/-- Witness for the amended C1 at the double-filed entry. -/
theorem scan_project_files_double_filing_witness :
    ("output.sub" ∈ scanBucket [⟨"output.sub", true⟩] SWATFileType.SUBBASIN) ∧
      ("output.sub" ∈ scanBucket [⟨"output.sub", true⟩] SWATFileType.OUTPUT_SUB) ∧
      SWATFileType.SUBBASIN ≠ SWATFileType.OUTPUT_SUB ∧
      ((∃ p ∈ patternsFor SWATFileType.SUBBASIN, p.matchesName "output.sub" = true) ∧
        ∃ p ∈ patternsFor SWATFileType.OUTPUT_SUB, p.matchesName "output.sub" = true) :=
  ⟨by decide, by decide, by decide,
    scan_project_files_double_filing_only_on_double_match
      [⟨"output.sub", true⟩] "output.sub" SWATFileType.SUBBASIN SWATFileType.OUTPUT_SUB
      (by decide) (by decide) (by decide)⟩

/-- C2: when the spatial filter matches zero rows, `get_variable_statistics`
falls back to the unfiltered series, while `get_time_series` with the same
variable and spatial id returns `none` — the two behaviors are distinct. -/
theorem statistics_fallback_vs_time_series_strict (data : Frame)
    (outputType varName : String) (sid : Int) (idc : String)
    (hvar : varName ∈ data.columns)
    (hid : idColumn outputType = some idc)
    (hidc : idc ∈ data.columns)
    (hzero : ∀ r ∈ data.rows, cellAt data r idc ≠ (sid : ℚ)) :
    get_variable_statistics (some data) outputType varName (some sid)
      = .ok (mkStats varName
          (data.rows.map (fun r => r.getD (colIdx data.columns varName) 0))) ∧
    get_time_series (some data) outputType varName (some sid) = none := by
  have hfil : data.rows.filter (fun r => decide (cellAt data r idc = (sid : ℚ))) = [] := by
    rw [List.filter_eq_nil_iff]
    intro r hr
    simpa using hzero r hr
  constructor
  · simp [get_variable_statistics, Frame.variables, hvar, Frame.getColumn, hid, hidc, hfil]
  · simp [get_time_series, Frame.variables, hvar, hid, hidc, hfil]

/-- Witness for C2: a reach frame whose `RCH` column never equals 7. -/
theorem statistics_fallback_vs_time_series_strict_witness :
    ("FLOW_OUT" ∈ (Frame.mk ["RCH", "FLOW_OUT"] [[1, 10], [2, 20], [3, 30]]).columns) ∧
    idColumn "reach" = some "RCH" ∧
    get_variable_statistics (some ⟨["RCH", "FLOW_OUT"], [[1, 10], [2, 20], [3, 30]]⟩)
        "reach" "FLOW_OUT" (some 7)
      = .ok (mkStats "FLOW_OUT"
          ([[1, 10], [2, 20], [3, 30]].map
            (fun r => r.getD (colIdx ["RCH", "FLOW_OUT"] "FLOW_OUT") 0))) ∧
    get_time_series (some ⟨["RCH", "FLOW_OUT"], [[1, 10], [2, 20], [3, 30]]⟩)
        "reach" "FLOW_OUT" (some 7) = none :=
  ⟨by decide, by decide,
    (statistics_fallback_vs_time_series_strict
      ⟨["RCH", "FLOW_OUT"], [[1, 10], [2, 20], [3, 30]]⟩ "reach" "FLOW_OUT" 7 "RCH"
      (by decide) (by decide) (by decide) (by decide)).1,
    (statistics_fallback_vs_time_series_strict
      ⟨["RCH", "FLOW_OUT"], [[1, 10], [2, 20], [3, 30]]⟩ "reach" "FLOW_OUT" 7 "RCH"
      (by decide) (by decide) (by decide) (by decide)).2⟩

theorem lookupStr_eq_none_of_not_mem (comp : String) :
    ∀ (l : List (String × ℚ)), (∀ p ∈ l, p.1 ≠ comp) → lookupStr comp l = none
  | [], _ => rfl
  | (k, v) :: rest, h => by
    have hk : k ≠ comp := h (k, v) (by simp)
    simp only [lookupStr]
    rw [if_neg (fun hc => hk hc.symm)]
    exact lookupStr_eq_none_of_not_mem comp rest (fun p hp => h p (by simp [hp]))

/-- Looking up a component in the balance dict evaluates the component's
alias loop, provided component names are distinct. -/
theorem lookupStr_filterMap (f : List String → Option ℚ) :
    ∀ (l : List (String × List String)) (comp : String) (aliases : List String),
      (l.map Prod.fst).Nodup → (comp, aliases) ∈ l →
      lookupStr comp (l.filterMap (fun ce => (f ce.2).map (fun s => (ce.1, s))))
        = f aliases
  | [], _, _, _, hmem => by simp at hmem
  | (c0, ns0) :: tl, comp, aliases, hnd, hmem => by
    have hnd' : (c0 :: tl.map Prod.fst).Nodup := by rw [List.map_cons] at hnd; exact hnd
    have hnd0 := List.nodup_cons.mp hnd'
    rcases List.mem_cons.mp hmem with heq | htl
    · injection heq with h1 h2
      subst h1
      subst h2
      cases hf : f aliases with
      | some s => simp [List.filterMap_cons, hf, lookupStr]
      | none =>
        simp only [List.filterMap_cons, hf, Option.map_none']
        apply lookupStr_eq_none_of_not_mem
        intro p hp
        obtain ⟨ce, hce, hpe⟩ := List.mem_filterMap.mp hp
        obtain ⟨s, _, hs⟩ := Option.map_eq_some'.mp hpe
        intro hp1
        exact hnd0.1 (by rw [← hp1, ← hs]; exact List.mem_map_of_mem Prod.fst hce)
    · have hcne : comp ≠ c0 := by
        intro h
        apply hnd0.1
        rw [← h]
        exact List.mem_map_of_mem Prod.fst htl
      cases hf : f ns0 with
      | some s =>
        simp only [List.filterMap_cons, hf, Option.map_some', lookupStr]
        rw [if_neg hcne]
        exact lookupStr_filterMap f tl comp aliases hnd0.2 htl
      | none =>
        simp only [List.filterMap_cons, hf, Option.map_none']
        exact lookupStr_filterMap f tl comp aliases hnd0.2 htl

/-- The alias loop takes the first alias whose column exists and sums it. -/
theorem firstAliasSum_eq_find (data : Frame) :
    ∀ (aliases : List String),
      firstAliasSum data aliases
        = (aliases.find? (fun v => decide (v ∈ data.columns))).map
            (fun a => (data.rows.map (fun r => r.getD (colIdx data.columns a) 0)).sum)
  | [] => rfl
  | v :: rest => by
    by_cases hv : v ∈ data.columns
    · simp [firstAliasSum, Frame.variables, Frame.getColumn, hv, List.find?_cons_of_pos]
    · simp only [firstAliasSum, Frame.variables]
      rw [if_neg hv, List.find?_cons_of_neg _ (by simpa using hv)]
      exact firstAliasSum_eq_find data rest

/-- C4: each of the six balance components appears in the water-balance
result iff at least one of its alias columns exists; when present its value
is the sum of the first existing alias column in priority order; a
component with no existing alias is omitted (never a zero placeholder). -/
theorem water_balance_components (data : Frame) (comp : String)
    (aliases : List String) (hmem : (comp, aliases) ∈ var_mapping) :
    ∃ bal, calculate_water_balance (some data) = .ok bal ∧
      ((lookupStr comp bal).isSome ↔ ∃ a ∈ aliases, a ∈ data.columns) ∧
      ∀ a, aliases.find? (fun v => decide (v ∈ data.columns)) = some a →
        lookupStr comp bal
          = some ((data.rows.map (fun r => r.getD (colIdx data.columns a) 0)).sum) := by
  have hnd : (var_mapping.map Prod.fst).Nodup := by decide
  have hl := lookupStr_filterMap (firstAliasSum data) var_mapping comp aliases hnd hmem
  refine ⟨_, rfl, ?_, ?_⟩
  · rw [hl, firstAliasSum_eq_find]
    simp [List.find?_isSome]
  · intro a ha
    rw [hl, firstAliasSum_eq_find, ha]
    rfl

/-- Witness for C4: precipitation is present via its second alias, and
surface runoff (no alias column) is absent. -/
theorem water_balance_components_witness :
    (("precipitation", ["PRECIP", "PRECIPmm"]) ∈ var_mapping) ∧
      ∃ bal, calculate_water_balance (some ⟨["SUB", "PRECIPmm"], [[1, 4], [2, 6]]⟩)
          = .ok bal ∧
        ((lookupStr "precipitation" bal).isSome ↔
          ∃ a ∈ ["PRECIP", "PRECIPmm"], a ∈ ["SUB", "PRECIPmm"]) ∧
        ∀ a, ["PRECIP", "PRECIPmm"].find?
              (fun v => decide (v ∈ (Frame.mk ["SUB", "PRECIPmm"] [[1, 4], [2, 6]]).columns))
            = some a →
          lookupStr "precipitation" bal
            = some (([[(1 : ℚ), 4], [2, 6]].map
                (fun r => r.getD (colIdx ["SUB", "PRECIPmm"] a) 0)).sum) :=
  ⟨by decide,
    water_balance_components ⟨["SUB", "PRECIPmm"], [[1, 4], [2, 6]]⟩
      "precipitation" ["PRECIP", "PRECIPmm"] (by decide)⟩

/-! ### Lemmas about project discovery -/

theorem getD_append_self (a d : String) : ∀ (xs t : List String),
    (xs ++ a :: t).getD xs.length d = a
  | [], t => rfl
  | x :: xs, t => by
    simp only [List.cons_append, List.length_cons, List.getD_cons_succ]
    exact getD_append_self a d xs t

theorem prefix_snoc_getD (xs : List String) (a : String) (q : List String)
    (h : (xs ++ [a]) <+: q) : q.getD xs.length "" = a := by
  obtain ⟨t, ht⟩ := h
  rw [← ht, List.append_assoc, List.singleton_append]
  exact getD_append_self a "" xs t

theorem nameOf_mem_forestNames : ∀ (ts : FSForest) (c : FSTree),
    c ∈ forestToList ts → c.nameOf ∈ forestNames ts
  | .nil, c, h => by simp [forestToList] at h
  | .cons x rest, c, h => by
    rcases List.mem_cons.mp (by simpa [forestToList] using h) with h | h
    · simp [forestNames, h]
    · simp [forestNames]
      exact Or.inr (nameOf_mem_forestNames rest c h)

mutual
theorem findAux_mem (maxDepth : Nat) (t : FSTree) (path : List String) (depth : Nat)
    (p : List String) (hp : p ∈ findAux maxDepth t path depth) :
    path <+: p ∧ p.length + depth ≤ path.length + maxDepth := by
  rw [findAux.eq_def] at hp
  by_cases h1 : maxDepth < depth
  · rw [if_pos h1] at hp
    simp at hp
  · rw [if_neg h1] at hp
    by_cases h2 : isSwatProject t
    · rw [if_pos h2] at hp
      have : p = path := by simpa using hp
      subst this
      exact ⟨List.prefix_refl p, by omega⟩
    · rw [if_neg h2] at hp
      cases t with
      | file n => simp at hp
      | dir n ch =>
        obtain ⟨⟨c, _, _, hcp⟩, hlen⟩ := findChildren_mem maxDepth ch path depth p hp
        exact ⟨(List.prefix_append path [c.nameOf]).trans hcp, hlen⟩

theorem findChildren_mem (maxDepth : Nat) (ts : FSForest) (path : List String)
    (depth : Nat) (p : List String) (hp : p ∈ findChildren maxDepth ts path depth) :
    (∃ c, c ∈ forestToList ts ∧ c.isDirB = true ∧ (path ++ [c.nameOf]) <+: p)
      ∧ p.length + depth ≤ path.length + maxDepth := by
  cases ts with
  | nil =>
    simp only [findChildren] at hp
    simp at hp
  | cons c rest =>
    simp only [findChildren] at hp
    rcases List.mem_append.mp hp with h | h
    · by_cases hd : c.isDirB
      · rw [if_pos hd] at h
        obtain ⟨hpre, hlen⟩ := findAux_mem maxDepth c (path ++ [c.nameOf]) (depth + 1) p h
        refine ⟨⟨c, by simp [forestToList], hd, hpre⟩, ?_⟩
        simp only [List.length_append, List.length_cons, List.length_nil] at hlen
        omega
      · rw [if_neg hd] at h
        simp at h
    · obtain ⟨⟨c', hc', hcd, hcp⟩, hlen⟩ := findChildren_mem maxDepth rest path depth p h
      exact ⟨⟨c', by simp [forestToList, hc'], hcd, hcp⟩, hlen⟩
end

mutual
theorem findAux_prefix_free (maxDepth : Nat) (t : FSTree) (path : List String)
    (depth : Nat) (hwf : wfNames t = true) (p q : List String)
    (hp : p ∈ findAux maxDepth t path depth) (hq : q ∈ findAux maxDepth t path depth)
    (hpq : p <+: q) : p = q := by
  rw [findAux.eq_def] at hp hq
  by_cases h1 : maxDepth < depth
  · rw [if_pos h1] at hp
    simp at hp
  · rw [if_neg h1] at hp hq
    by_cases h2 : isSwatProject t
    · rw [if_pos h2] at hp hq
      have hp' : p = path := by simpa using hp
      have hq' : q = path := by simpa using hq
      rw [hp', hq']
    · rw [if_neg h2] at hp hq
      cases t with
      | file n => simp at hp
      | dir n ch =>
        have hwf' : nodupStr (forestNames ch) = true ∧ wfForest ch = true := by
          simpa [wfNames, Bool.and_eq_true] using hwf
        exact findChildren_prefix_free maxDepth ch path depth hwf'.2 hwf'.1 p q hp hq hpq

theorem findChildren_prefix_free (maxDepth : Nat) (ts : FSForest) (path : List String)
    (depth : Nat) (hwf : wfForest ts = true) (hnd : nodupStr (forestNames ts) = true)
    (p q : List String) (hp : p ∈ findChildren maxDepth ts path depth)
    (hq : q ∈ findChildren maxDepth ts path depth) (hpq : p <+: q) : p = q := by
  cases ts with
  | nil =>
    simp only [findChildren] at hp
    simp at hp
  | cons c rest =>
    simp only [findChildren] at hp hq
    have hwf0 : wfNames c = true ∧ wfForest rest = true := by
      simpa [wfForest, Bool.and_eq_true] using hwf
    have hnd0 : c.nameOf ∉ forestNames rest ∧ nodupStr (forestNames rest) = true := by
      simpa [nodupStr, forestNames, Bool.and_eq_true] using hnd
    have hA : ∀ r ∈ (if c.isDirB then findAux maxDepth c (path ++ [c.nameOf]) (depth + 1)
        else []), (path ++ [c.nameOf]) <+: r := by
      intro r hr
      by_cases hd : c.isDirB
      · rw [if_pos hd] at hr
        exact (findAux_mem maxDepth c (path ++ [c.nameOf]) (depth + 1) r hr).1
      · rw [if_neg hd] at hr
        simp at hr
    have hB : ∀ r ∈ findChildren maxDepth rest path depth,
        ∃ c', c' ∈ forestToList rest ∧ (path ++ [c'.nameOf]) <+: r := by
      intro r hr
      obtain ⟨⟨c', hc', _, hcp⟩, _⟩ := findChildren_mem maxDepth rest path depth r hr
      exact ⟨c', hc', hcp⟩
    rcases List.mem_append.mp hp with hpA | hpB <;> rcases List.mem_append.mp hq with hqA | hqB
    · by_cases hd : c.isDirB
      · rw [if_pos hd] at hpA hqA
        exact findAux_prefix_free maxDepth c (path ++ [c.nameOf]) (depth + 1)
          hwf0.1 p q hpA hqA hpq
      · rw [if_neg hd] at hpA
        simp at hpA
    · exfalso
      obtain ⟨c', hc', hcq⟩ := hB q hqB
      have h1 : q.getD path.length "" = c.nameOf :=
        prefix_snoc_getD path c.nameOf q ((hA p hpA).trans hpq)
      have h2 : q.getD path.length "" = c'.nameOf := prefix_snoc_getD path c'.nameOf q hcq
      exact hnd0.1 (h1 ▸ h2 ▸ nameOf_mem_forestNames rest c' hc')
    · exfalso
      obtain ⟨c', hc', hcp⟩ := hB p hpB
      have h1 : q.getD path.length "" = c.nameOf :=
        prefix_snoc_getD path c.nameOf q (hA q hqA)
      have h2 : q.getD path.length "" = c'.nameOf :=
        prefix_snoc_getD path c'.nameOf q (hcp.trans hpq)
      exact hnd0.1 (h1 ▸ h2 ▸ nameOf_mem_forestNames rest c' hc')
    · exact findChildren_prefix_free maxDepth rest path depth hwf0.2 hnd0.2 p q hpB hqB hpq
end

/-- C5: `find(root, max_depth)` never returns a path strictly deeper than
`max_depth` below the root, and (on a filesystem with distinct sibling
names) no returned path is a descendant of another returned path. -/
theorem find_swat_projects_depth_and_no_nesting (t : FSTree) (maxDepth : Nat)
    (hwf : wfNames t = true) :
    (∀ p ∈ find_swat_projects t maxDepth, p.length ≤ maxDepth) ∧
    (∀ p ∈ find_swat_projects t maxDepth, ∀ q ∈ find_swat_projects t maxDepth,
      p <+: q → p = q) := by
  constructor
  · intro p hp
    have := (findAux_mem maxDepth t [] 0 p hp).2
    simpa using this
  · intro p hp q hq hpq
    exact findAux_prefix_free maxDepth t [] 0 hwf p q hp hq hpq

/-- Witness for C5 at a two-level tree whose project sits at depth 1. -/
theorem find_swat_projects_depth_witness :
    wfNames (.dir "root" (.cons (.dir "b" (.cons (.file "file.cio") .nil)) .nil)) = true ∧
      (["b"] : List String).length ≤ 3 :=
  ⟨by decide,
    (find_swat_projects_depth_and_no_nesting
      (.dir "root" (.cons (.dir "b" (.cons (.file "file.cio") .nil)) .nil)) 3
      (by decide)).1 ["b"] (by decide)⟩

theorem namesSorted_tail : ∀ (x : FSTree) (l : List FSTree),
    namesSorted (x :: l) = true → namesSorted l = true
  | _, [], _ => rfl
  | x, y :: ys, h => by
    simp only [namesSorted, Bool.and_eq_true] at h
    exact h.2

theorem insertByName_sorted (x : FSTree) (l : List FSTree)
    (h : namesSorted (x :: l) = true) : insertByName x l = x :: l := by
  cases l with
  | nil => rfl
  | cons y ys =>
    simp only [namesSorted, Bool.and_eq_true, Bool.not_eq_true'] at h
    simp only [insertByName]
    rw [if_neg (by simp [h.1])]

theorem sortByName_sorted_id : ∀ (l : List FSTree),
    namesSorted l = true → sortByName l = l
  | [], _ => rfl
  | x :: xs, h => by
    simp only [sortByName]
    rw [sortByName_sorted_id xs (namesSorted_tail x xs h)]
    exact insertByName_sorted x xs h

theorem findSortedAux_zero (t : FSTree) (path : List String) :
    findSortedAux 0 t path = [] := rfl

theorem findSortedAux_succ_dir (b : Nat) (n : String) (ch : FSForest)
    (path : List String) :
    findSortedAux (b + 1) (.dir n ch) path
      = if isSwatProject (.dir n ch) then [path]
        else (sortByName (forestToList ch)).flatMap (fun c =>
          if c.isDirB then findSortedAux b c (path ++ [c.nameOf]) else []) := by
  by_cases h : isSwatProject (.dir n ch) <;> simp [findSortedAux, h]

theorem findSortedAux_succ_file (b : Nat) (n : String) (path : List String) :
    findSortedAux (b + 1) (.file n) path = [] := by
  simp [findSortedAux, isSwatProject]

mutual
theorem findAux_eq_sorted (maxDepth : Nat) (t : FSTree) (path : List String)
    (depth budget : Nat) (hb : budget + depth = maxDepth + 1)
    (hs : listingSorted t = true) :
    findAux maxDepth t path depth = findSortedAux budget t path := by
  cases budget with
  | zero =>
    rw [findAux.eq_def, if_pos (show maxDepth < depth by omega), findSortedAux_zero]
  | succ b =>
    cases t with
    | file n =>
      rw [findAux.eq_def, if_neg (show ¬maxDepth < depth by omega),
        if_neg (show ¬isSwatProject (.file n) = true by simp [isSwatProject]),
        findSortedAux_succ_file]
    | dir n ch =>
      rw [findAux.eq_def, if_neg (show ¬maxDepth < depth by omega),
        findSortedAux_succ_dir]
      by_cases hsw : isSwatProject (.dir n ch)
      · rw [if_pos hsw, if_pos hsw]
      · rw [if_neg hsw, if_neg hsw]
        have hs0 : namesSorted (forestToList ch) = true ∧
            listingSortedForest ch = true := by
          simpa [listingSorted, Bool.and_eq_true] using hs
        rw [sortByName_sorted_id (forestToList ch) hs0.1]
        exact findChildren_eq_flatMap maxDepth ch path depth b (by omega) hs0.2

theorem findChildren_eq_flatMap (maxDepth : Nat) (ts : FSForest) (path : List String)
    (depth b : Nat) (hb : b + (depth + 1) = maxDepth + 1)
    (hs : listingSortedForest ts = true) :
    findChildren maxDepth ts path depth
      = (forestToList ts).flatMap (fun c =>
          if c.isDirB then findSortedAux b c (path ++ [c.nameOf]) else []) := by
  cases ts with
  | nil => rfl
  | cons c rest =>
    have hs0 : listingSorted c = true ∧ listingSortedForest rest = true := by
      simpa [listingSortedForest, Bool.and_eq_true] using hs
    simp only [findChildren, forestToList, List.flatMap_cons]
    congr 1
    · by_cases hd : c.isDirB
      · rw [if_pos hd, if_pos hd]
        exact findAux_eq_sorted maxDepth c (path ++ [c.nameOf]) (depth + 1) b hb hs0.1
      · rw [if_neg hd, if_neg hd]
    · exact findChildren_eq_flatMap maxDepth rest path depth b hb hs0.2
end

/-- C7 counterexample: with the directory listing `[b, a]` (both projects),
`find_swat_projects` returns `[b, a]` — the listing order — while the
spec's sorted-name depth-first traversal would return `[a, b]`. -/
theorem find_swat_projects_not_sorted_counterexample :
    find_swat_projects
        (.dir "root" (.cons (.dir "b" (.cons (.file "file.cio") .nil))
          (.cons (.dir "a" (.cons (.file "file.cio") .nil)) .nil))) 3
      = [["b"], ["a"]] ∧
    find_sorted_spec
        (.dir "root" (.cons (.dir "b" (.cons (.file "file.cio") .nil))
          (.cons (.dir "a" (.cons (.file "file.cio") .nil)) .nil))) 3
      = [["a"], ["b"]] ∧
    find_swat_projects
        (.dir "root" (.cons (.dir "b" (.cons (.file "file.cio") .nil))
          (.cons (.dir "a" (.cons (.file "file.cio") .nil)) .nil))) 3
      ≠ find_sorted_spec
        (.dir "root" (.cons (.dir "b" (.cons (.file "file.cio") .nil))
          (.cons (.dir "a" (.cons (.file "file.cio") .nil)) .nil))) 3 := by
  decide

/-- C7 (amended): `find` visits the child directories of each non-project
directory in directory-listing (`iterdir`) order, depth-first at
`depth + 1`, so the returned list is in listing-order depth-first order; it
coincides with the spec's sorted-name depth-first order exactly on trees
whose every directory listing is already name-sorted. -/
theorem find_swat_projects_listing_order (t : FSTree) (maxDepth : Nat)
    (hs : listingSorted t = true) :
    find_swat_projects t maxDepth = find_sorted_spec t maxDepth :=
  findAux_eq_sorted maxDepth t [] 0 (maxDepth + 1) (by omega) hs

/-- Witness for the amended C7 on a tree with a name-sorted listing. -/
theorem find_swat_projects_listing_order_witness :
    listingSorted
        (.dir "root" (.cons (.dir "a" (.cons (.file "file.cio") .nil))
          (.cons (.dir "b" (.cons (.file "file.cio") .nil)) .nil))) = true ∧
    find_swat_projects
        (.dir "root" (.cons (.dir "a" (.cons (.file "file.cio") .nil))
          (.cons (.dir "b" (.cons (.file "file.cio") .nil)) .nil))) 3
      = find_sorted_spec
        (.dir "root" (.cons (.dir "a" (.cons (.file "file.cio") .nil))
          (.cons (.dir "b" (.cons (.file "file.cio") .nil)) .nil))) 3 :=
  ⟨by decide,
    find_swat_projects_listing_order
      (.dir "root" (.cons (.dir "a" (.cons (.file "file.cio") .nil))
        (.cons (.dir "b" (.cons (.file "file.cio") .nil)) .nil))) 3 (by decide)⟩

/-! ### Project construction (C6) -/

theorem pathExists_resolve (W : List String → Bool) (cwd : List String) (p : PyPath) :
    pathExists W cwd (resolvePath cwd p) = pathExists W cwd p := by
  simp [pathExists, resolvePath]

/-- C6 counterexample: with working directory `home` and an existing
relative path `proj`, the core dataclass constructor succeeds yet stores
the path unresolved — not in absolute form. -/
theorem core_project_not_resolved_counterexample :
    mkCoreProject (fun l => decide (l = ["home", "proj"])) ["home"]
        ⟨false, ["proj"]⟩ "proj" "" = .ok ⟨⟨false, ["proj"]⟩, "proj", ""⟩ ∧
      (PyPath.mk false ["proj"]).absolute = false := by
  constructor
  · rfl
  · rfl

/-- C6 (amended): both constructors fail with a path-not-found error when
the root does not exist; the io-module constructor stores the root resolved
to absolute form, while the core dataclass stores the path exactly as given
(possibly relative — it never resolves). -/
theorem project_construction_path_handling (W : List String → Bool)
    (cwd : List String) (p : PyPath) (name description : String) :
    (pathExists W cwd p = false →
      mkCoreProject W cwd p name description = .error "Project path does not exist") ∧
    (∀ proj, mkCoreProject W cwd p name description = .ok proj →
      proj.project_path = p) ∧
    (pathExists W cwd p = false →
      mkIoProject W cwd p = .error "FileNotFoundError") ∧
    (∀ proj, mkIoProject W cwd p = .ok proj →
      proj.root = resolvePath cwd p ∧ proj.root.absolute = true) := by
  refine ⟨?_, ?_, ?_, ?_⟩
  · intro h
    simp [mkCoreProject, h]
  · intro proj h
    by_cases he : pathExists W cwd p = true
    · simp [mkCoreProject, he] at h
      rw [← h]
    · simp [mkCoreProject, he] at h
  · intro h
    simp only [mkIoProject]
    rw [if_neg (by rw [pathExists_resolve, h]; exact Bool.false_ne_true)]
  · intro proj h
    simp only [mkIoProject] at h
    by_cases he : pathExists W cwd p = true
    · rw [if_pos (by rw [pathExists_resolve]; exact he)] at h
      have := Except.ok.inj h
      rw [← this]
      exact ⟨rfl, by simp [resolvePath]⟩
    · rw [if_neg (by rw [pathExists_resolve]; simpa using he)] at h
      cases h

/-- Witness for the amended C6 at a nonexistent relative path. -/
theorem project_construction_path_handling_witness :
    pathExists (fun l => decide (l = ["r"])) [] ⟨false, ["x"]⟩ = false ∧
      mkCoreProject (fun l => decide (l = ["r"])) [] ⟨false, ["x"]⟩ "x" ""
        = .error "Project path does not exist" ∧
      mkIoProject (fun l => decide (l = ["r"])) [] ⟨false, ["x"]⟩
        = .error "FileNotFoundError" :=
  ⟨by decide,
   (project_construction_path_handling (fun l => decide (l = ["r"])) []
     ⟨false, ["x"]⟩ "x" "").1 (by decide),
   (project_construction_path_handling (fun l => decide (l = ["r"])) []
     ⟨false, ["x"]⟩ "x" "").2.2.1 (by decide)⟩

/-! ### Output reading (C9) -/

/-- C9: constructing the reader on a missing file raises file-not-found
before any parsing; a constructed reader's `read` never propagates a parse
exception — a parse failure yields the empty frame, a parse success yields
the parsed frame. -/
theorem output_reader_error_handling (parse : Nat → String → Except String Frame)
    (fileContent : Option String) (output_type : String) (skip : Nat) :
    (fileContent = none →
      mkOutputReader fileContent output_type skip = .error "File not found") ∧
    (∀ c, fileContent = some c →
      ∃ r, mkOutputReader fileContent output_type skip = .ok r ∧
        (∀ e, parse skip c = .error e →
          (r.readData parse).data = Frame.mk [] []) ∧
        (∀ df, parse skip c = .ok df → (r.readData parse).data = df)) := by
  constructor
  · intro h
    rw [h]
    rfl
  · intro c h
    subst h
    refine ⟨⟨c, output_type, skip⟩, rfl, ?_, ?_⟩
    · intro e he
      simp only [OutputReaderM.readData]
      split_ifs <;> simp [read_to_dataframe, he]
    · intro df hdf
      simp only [OutputReaderM.readData]
      split_ifs <;> simp [read_to_dataframe, hdf]

/-- Witness for C9: an always-failing parser degrades to the empty frame. -/
theorem output_reader_error_handling_witness :
    ((OutputReaderM.mk "bad" "reach" 9).readData
      (fun _ _ => (.error "boom" : Except String Frame))).data = Frame.mk [] [] := by
  obtain ⟨r, hr, he, _⟩ := (output_reader_error_handling
      (fun _ _ => (.error "boom" : Except String Frame)) (some "bad") "reach" 9).2
      "bad" rfl
  have hr' : OutputReaderM.mk "bad" "reach" 9 = r :=
    Except.ok.inj (by rw [← hr]; rfl)
  rw [hr']
  exact he "boom" rfl

/-! ### Project manager (C10) -/

/-- C10: loading an invalid project root returns the rejection error and
leaves the manager's current-project reference unchanged; on a valid root
the project is constructed and only then installed as current. -/
theorem load_project_state (w : FSTree) (m : ProjectManagerM) (path : List String) :
    (is_swat_project_at w path = false →
      load_project w m path = (.error "Not a valid SWAT project", m)) ∧
    (is_swat_project_at w path = true →
      ∃ proj, load_project w m path = (.ok proj, { current := some proj })) := by
  constructor
  · intro h
    simp [load_project, h]
  · intro h
    have hlook : (lookupTree w path).isSome = true := by
      unfold is_swat_project_at at h
      cases hl : lookupTree w path with
      | none => rw [hl] at h; simp at h
      | some t => simp
    exact ⟨{ project_path := path, name := lastComp path,
             description := "SWAT project at " ++ pathStr path,
             filesOf := scan_project_files_at w path },
      by simp [load_project, h, mkManagedProject, hlook]⟩

/-- Witness for C10: an invalid path leaves `current` untouched, a valid
path installs the loaded project. -/
theorem load_project_state_witness :
    is_swat_project_at
        (.dir "root" (.cons (.dir "p" (.cons (.file "file.cio") .nil)) .nil))
        ["q"] = false ∧
      load_project
        (.dir "root" (.cons (.dir "p" (.cons (.file "file.cio") .nil)) .nil))
        ⟨none⟩ ["q"] = (.error "Not a valid SWAT project", ⟨none⟩) ∧
      ((load_project
        (.dir "root" (.cons (.dir "p" (.cons (.file "file.cio") .nil)) .nil))
        ⟨none⟩ ["p"]).2).current.isSome = true := by
  refine ⟨by decide, (load_project_state
    (.dir "root" (.cons (.dir "p" (.cons (.file "file.cio") .nil)) .nil))
    ⟨none⟩ ["q"]).1 (by decide), ?_⟩
  obtain ⟨proj, hp⟩ := (load_project_state
    (.dir "root" (.cons (.dir "p" (.cons (.file "file.cio") .nil)) .nil))
    ⟨none⟩ ["p"]).2 (by decide)
  rw [hp]
  rfl

end SwatSpec
